import Mathlib

/-!
Verification development for the C-syntax highlighting editor
(`sourcecode/Lcode.py`).  The highlighting core (`CHighlighter`), the
line-number gutter (`CodeEditor.lineNumberAreaWidth` and the gutter paint
loop), and the cursor-position status label
(`MainWindow.updateCursorPosition`) are embedded as executable Lean
functions over `List Char` block texts, and the specified properties are
proved about them.

Block texts handed to `highlightBlock` are single Qt text blocks, i.e. one
line of the buffer, and therefore never contain a newline character; the
matchers below nevertheless treat `.` and `[^\n]` as "any character other
than a newline", the documented behaviour of the regular expressions in
`init_rules`.
-/

set_option maxRecDepth 8192

/-- Syntactic categories, one per character format built in
`CHighlighter.init_formats` (`keywordFmt`, `typeFmt`, `numFmt`, `strFmt`,
`commentFmt`, `preFmt`, `funcFmt`). -/
inductive Category where
  | Keyword
  | TypeName
  | Number
  | String
  | Comment
  | Preprocessor
  | CallableName
deriving DecidableEq

/-- A highlighted range: `setFormat(start, length, fmt)` recorded as data. -/
structure Span where
  start : Nat
  length : Nat
  category : Category
deriving DecidableEq

/-- Word character for the `\b` assertion of QRegExp: `[A-Za-z0-9_]`. -/
def isWordChar (c : Char) : Bool := c.isAlphanum || c == '_'

/-- The `\b` assertion before position `i` (the character at `i` being a
word character in every pattern that uses it). -/
def boundaryBefore (text : List Char) (i : Nat) : Bool :=
  match i with
  | 0 => true
  | j + 1 =>
    match text[j]? with
    | none => true
    | some c => !isWordChar c

/-- The `\b` assertion after a match ending at exclusive position `j` (the
character at `j - 1` being a word character in every pattern that uses it). -/
def boundaryAfter (text : List Char) (j : Nat) : Bool :=
  match text[j]? with
  | none => true
  | some c => !isWordChar c

/-- Length of the maximal digit run `[0-9]*` starting at `i`. -/
def digitRun (text : List Char) (i : Nat) : Nat :=
  ((text.drop i).takeWhile Char.isDigit).length

/-- Length of the maximal word-character run `[A-Za-z0-9_]*` starting at `i`. -/
def wordRun (text : List Char) (i : Nat) : Nat :=
  ((text.drop i).takeWhile isWordChar).length

/-- Length of the maximal whitespace run `\s*` starting at `i`. -/
def spaceRun (text : List Char) (i : Nat) : Nat :=
  ((text.drop i).takeWhile Char.isWhitespace).length

/-- Matcher for a whole-word rule `\b<w>\b` (the keyword and type rules of
`init_rules`): the literal word `w` at position `i` with word boundaries on
both sides.  Returns the matched length. -/
def matchWord (w : List Char) (text : List Char) (i : Nat) : Option Nat :=
  if boundaryBefore text i ∧ (text.drop i).take w.length = w ∧
      boundaryAfter text (i + w.length) then
    some w.length
  else none

/-- Matcher for the numeric rule `\b[0-9]+(\.[0-9]+)?\b`: a mandatory digit
run, then — greedily, with the backtracking fallbacks of the optional
group — an optional `.` plus digit run, then a trailing word boundary. -/
def matchNumber (text : List Char) (i : Nat) : Option Nat :=
  if boundaryBefore text i then
    if digitRun text i = 0 then none
    else
      if text[i + digitRun text i]? = some '.' ∧
          0 < digitRun text (i + digitRun text i + 1) then
        if boundaryAfter text
            (i + digitRun text i + 1 + digitRun text (i + digitRun text i + 1)) then
          some (digitRun text i + 1 + digitRun text (i + digitRun text i + 1))
        else if boundaryAfter text (i + digitRun text i) then
          some (digitRun text i)
        else none
      else if boundaryAfter text (i + digitRun text i) then
        some (digitRun text i)
      else none
  else none

/-- Scan the interior of a quoted literal `[^q\\]*(\\.[^q\\]*)*q`: returns
the offset of the closing quote relative to the scan start.  The flag is
true directly after an unconsumed backslash, whose following character is
consumed by `\\.` (any character but a newline). -/
def strTailF (q : Char) : Bool → List Char → Option Nat
  | _, [] => none
  | true, c :: rest =>
    if c = '\n' then none
    else (strTailF q false rest).map (· + 1)
  | false, c :: rest =>
    if c = q then some 0
    else if c = '\\' then (strTailF q true rest).map (· + 1)
    else (strTailF q false rest).map (· + 1)

/-- Matcher for the quoted-literal rules `"[^"\\]*(\\.[^"\\]*)*"` and
`'[^'\\]*(\\.[^'\\]*)*'`: an opening quote `q` at `i`, then the interior
scan up to the first quote not consumed by an escape pair. -/
def matchQuoted (q : Char) (text : List Char) (i : Nat) : Option Nat :=
  if text[i]? = some q then
    (strTailF q false (text.drop (i + 1))).map (· + 2)
  else none

/-- Matcher for the preprocessor rule `^\s*#.*`: anchored at position 0
(QRegExp's default caret mode anchors `^` to offset 0 of the block),
leading whitespace, a `#`, then the rest of the line. -/
def matchPre (text : List Char) (i : Nat) : Option Nat :=
  if i = 0 then
    if text[(text.takeWhile Char.isWhitespace).length]? = some '#' then
      some ((text.takeWhile Char.isWhitespace).length + 1 +
        ((text.drop ((text.takeWhile Char.isWhitespace).length + 1)).takeWhile
          (fun c => c != '\n')).length)
    else none
  else none

/-- Matcher for the line-comment rule `//[^\n]*`. -/
def matchLineComment (text : List Char) (i : Nat) : Option Nat :=
  if text[i]? = some '/' ∧ text[i + 1]? = some '/' then
    some (2 + ((text.drop (i + 2)).takeWhile (fun c => c != '\n')).length)
  else none

/-- Matcher for the block-comment rule `QRegExp(r'/\*.*?\*/')`.  QRegExp
supports no per-quantifier non-greediness: `*?` is not lazy-match syntax
for it (only the pattern-wide `setMinimal()`, never called here, reverses
greediness), and the stray `?` after `.*` makes the compiled pattern
invalid ("bad repetition syntax").  An invalid QRegExp matches nothing, so
the block-comment rule of `init_rules` never produces a match. -/
def matchBlockComment (_text : List Char) (_i : Nat) : Option Nat :=
  none

/-- Matcher for the callable-name rule `\b[A-Za-z_][A-Za-z0-9_]*(?=\s*\()`:
a maximal identifier with a word boundary before it, accepted only when the
(unconsumed) lookahead `\s*\(` succeeds after it. -/
def matchCallable (text : List Char) (i : Nat) : Option Nat :=
  if boundaryBefore text i then
    match text[i]? with
    | none => none
    | some c =>
      if c.isAlpha || c == '_' then
        if text[i + (1 + wordRun text (i + 1)) +
            spaceRun text (i + (1 + wordRun text (i + 1)))]? = some '(' then
          some (1 + wordRun text (i + 1))
        else none
      else none
  else none

/-- `QRegExp.indexIn(text, s)` helper: try positions `s, s+1, ...` for `k`
steps, returning the first position with a match together with the matched
length. -/
def indexInAux (m : List Char → Nat → Option Nat) (text : List Char) :
    Nat → Nat → Option (Nat × Nat)
  | 0, _ => none
  | k + 1, s =>
    match m text s with
    | some l => some (s, l)
    | none => indexInAux m text k (s + 1)

/-- `pat.indexIn(text, start)`: leftmost match of the rule at a position
not before `start` (positions up to and including `text.length` are
probed, as with QString indices). -/
def indexIn (m : List Char → Nat → Option Nat) (text : List Char)
    (start : Nat) : Option (Nat × Nat) :=
  indexInAux m text (text.length + 1 - start) start

/-- The per-rule loop of `highlightBlock`: repeatedly `indexIn` from
`start`, record the match, resume at `i + l`.  The fuel argument makes the
loop a total function; the termination theorem shows the fuel
`text.length + 1` used by `runRule` is never exhausted. -/
def scanFrom (m : List Char → Nat → Option Nat) (text : List Char) :
    Nat → Nat → List (Nat × Nat)
  | _, 0 => []
  | start, fuel + 1 =>
    match indexIn m text start with
    | none => []
    | some (i, l) => (i, l) :: scanFrom m text (i + l) fuel

/-- All successive matches of one rule over the block text, in scan order. -/
def runRule (m : List Char → Nat → Option Nat) (text : List Char) :
    List (Nat × Nat) :=
  scanFrom m text 0 (text.length + 1)

/-- One entry of `self.rules`: a compiled pattern paired with its format. -/
structure Rule where
  matcher : List Char → Nat → Option Nat
  category : Category

/-- The keyword list `kws` of `init_rules`. -/
def kws : List String :=
  ["if", "else", "for", "while", "do", "switch", "case", "break", "continue",
   "return", "goto", "sizeof", "struct", "union", "enum", "typedef", "static",
   "const", "volatile", "extern", "register", "inline", "restrict"]

/-- The type list `types` of `init_rules`. -/
def types : List String :=
  ["int", "long", "short", "char", "float", "double", "void", "signed",
   "unsigned", "bool"]

/-- The single-quote character (the delimiter of the character-literal
rule). -/
def squote : Char := Char.ofNat 39

/-- The rule table built by `CHighlighter.init_rules`, in order: one
whole-word rule per keyword, one per type name, then number, double-quoted
string, single-quoted character, preprocessor, line comment, block comment,
and the callable-name rule last. -/
def rules : List Rule :=
  (kws.map fun w => ⟨matchWord w.toList, Category.Keyword⟩) ++
  (types.map fun t => ⟨matchWord t.toList, Category.TypeName⟩) ++
  [⟨matchNumber, Category.Number⟩,
   ⟨matchQuoted '"', Category.String⟩,
   ⟨matchQuoted squote, Category.String⟩,
   ⟨matchPre, Category.Preprocessor⟩,
   ⟨matchLineComment, Category.Comment⟩,
   ⟨matchBlockComment, Category.Comment⟩,
   ⟨matchCallable, Category.CallableName⟩]

/-- The spans recorded by `highlightBlock` for one block of text, given a
rule table: every match of every rule, in rule order then scan order —
exactly the order of the `setFormat` calls. -/
def classifyWith (rs : List Rule) (text : List Char) : List Span :=
  rs.flatMap fun r =>
    (runRule r.matcher text).map fun il => ⟨il.1, il.2, r.category⟩

/-- `classify`: the spans produced for one block with the fixed rule table. -/
def classify (text : List Char) : List Span :=
  classifyWith rules text

/-- The effective per-character category after all `setFormat` calls:
spans are stamped in emission order, each unconditionally overwriting the
covered offsets; characters never covered keep the default (`none`). -/
def charCat (text : List Char) (p : Nat) : Option Category :=
  (classify text).foldl
    (fun acc s => if s.start ≤ p ∧ p < s.start + s.length then some s.category else acc)
    none

/-- Boolean test that a span covers offset `p`. -/
def coversB (p : Nat) (s : Span) : Bool :=
  decide (s.start ≤ p ∧ p < s.start + s.length)

/-- The mutable state of a `CHighlighter`: the rule table built once by
`init_rules` and only ever read afterwards. -/
structure HighlighterState where
  hrules : List Rule

/-- The state after `__init__` has run `init_rules`. -/
def initState : HighlighterState := ⟨rules⟩

/-- One invocation of `highlightBlock`: emits the spans for the block text
and leaves the highlighter state untouched (the method only reads
`self.rules`). -/
def highlightBlock (st : HighlighterState) (text : List Char) :
    List Span × HighlighterState :=
  (classifyWith st.hrules text, st)

/-- `CodeEditor.lineNumberAreaWidth`: `3 + advance('9') * digits` where
`digits = len(str(max(1, blockCount)))`.  The width of the digit glyph is
abstracted as the parameter `charWidth`. -/
def lineNumberAreaWidth (blockCount charWidth : Nat) : Nat :=
  3 + charWidth * (Nat.repr (max 1 blockCount)).length

/-- The label painted for block number `b` by
`lineNumberAreaPaintEvent`: `str(blockNumber + 1)`, the 1-based line
number (drawn with `Qt.AlignRight`). -/
def gutterLabel (blockNumber : Nat) : String :=
  Nat.repr (blockNumber + 1)

/-- The labels produced by the gutter paint loop for `count` visible
blocks starting at block `firstVisible`. -/
def lineNumberAreaLabels (firstVisible count : Nat) : List String :=
  (List.range count).map fun k => gutterLabel (firstVisible + k)

/-- `MainWindow.updateCursorPosition`: the status-bar text
`f'📍 Ln {line}, Col {col}'` with `line = blockNumber + 1` and
`col = columnNumber + 1`. -/
def updateCursorPosition (blockNumber columnNumber : Nat) : String :=
  "📍 Ln " ++ Nat.repr (blockNumber + 1) ++ ", Col " ++ Nat.repr (columnNumber + 1)

/-! ## Helper lemmas: bounds and progress of the individual matchers -/

/-- A matcher is good when every match consumes at least one character and
stays inside the text. -/
def GoodMatcher (m : List Char → Nat → Option Nat) : Prop :=
  ∀ (text : List Char) (i l : Nat), m text i = some l →
    1 ≤ l ∧ i + l ≤ text.length

theorem digitRun_le (text : List Char) (i : Nat) :
    digitRun text i ≤ text.length - i := by
  unfold digitRun
  calc ((text.drop i).takeWhile Char.isDigit).length
      ≤ (text.drop i).length := (List.takeWhile_sublist _).length_le
    _ = text.length - i := List.length_drop i text

theorem wordRun_le (text : List Char) (i : Nat) :
    wordRun text i ≤ text.length - i := by
  unfold wordRun
  calc ((text.drop i).takeWhile isWordChar).length
      ≤ (text.drop i).length := (List.takeWhile_sublist _).length_le
    _ = text.length - i := List.length_drop i text

theorem getElem?_some_lt {text : List Char} {j : Nat} {c : Char}
    (h : text[j]? = some c) : j < text.length := by
  rcases List.getElem?_eq_some.1 h with ⟨hlt, _⟩
  exact hlt

theorem matchWord_good (w : List Char) (hw : w ≠ []) :
    GoodMatcher (matchWord w) := by
  intro text i l h
  unfold matchWord at h
  split at h
  case isTrue hc =>
    obtain ⟨hb, htake, hba⟩ := hc
    have hlen := congrArg List.length htake
    rw [List.length_take, List.length_drop] at hlen
    have hpos : 0 < w.length := List.length_pos.2 hw
    cases h
    omega
  case isFalse => exact Option.noConfusion h

theorem matchNumber_good : GoodMatcher matchNumber := by
  intro text i l h
  unfold matchNumber at h
  have hd := digitRun_le text i
  split at h
  case isFalse => exact Option.noConfusion h
  case isTrue hb =>
    split at h
    case isTrue => exact Option.noConfusion h
    case isFalse hd0 =>
      split at h
      case isTrue hdot =>
        have hlt : i + digitRun text i < text.length := getElem?_some_lt hdot.1
        have hf := digitRun_le text (i + digitRun text i + 1)
        split at h
        case isTrue => cases h; omega
        case isFalse =>
          split at h
          case isTrue => cases h; omega
          case isFalse => exact Option.noConfusion h
      case isFalse =>
        split at h
        case isTrue => cases h; omega
        case isFalse => exact Option.noConfusion h

theorem strTailF_le (q : Char) :
    ∀ (xs : List Char) (b : Bool) (d : Nat),
      strTailF q b xs = some d → d + 1 ≤ xs.length := by
  intro xs
  induction xs with
  | nil => intro b d h; cases b <;> exact Option.noConfusion h
  | cons c rest ih =>
    intro b d h
    cases b with
    | true =>
      unfold strTailF at h
      split at h
      · exact Option.noConfusion h
      · rcases Option.map_eq_some'.1 h with ⟨d', hd', rfl⟩
        have := ih false d' hd'
        simpa using Nat.succ_le_succ this
    | false =>
      unfold strTailF at h
      split at h
      · cases h; simp
      · split at h
        · rcases Option.map_eq_some'.1 h with ⟨d', hd', rfl⟩
          have := ih true d' hd'
          simpa using Nat.succ_le_succ this
        · rcases Option.map_eq_some'.1 h with ⟨d', hd', rfl⟩
          have := ih false d' hd'
          simpa using Nat.succ_le_succ this

theorem matchQuoted_good (q : Char) : GoodMatcher (matchQuoted q) := by
  intro text i l h
  unfold matchQuoted at h
  split at h
  case isTrue hq =>
    have hi : i < text.length := getElem?_some_lt hq
    rcases Option.map_eq_some'.1 h with ⟨d, hd, rfl⟩
    have := strTailF_le q (text.drop (i + 1)) false d hd
    rw [List.length_drop] at this
    omega
  case isFalse => exact Option.noConfusion h

theorem matchPre_good : GoodMatcher matchPre := by
  intro text i l h
  unfold matchPre at h
  split at h
  case isTrue hi =>
    split at h
    case isTrue hhash =>
      have hlt : (text.takeWhile Char.isWhitespace).length < text.length :=
        getElem?_some_lt hhash
      have hrest :
          ((text.drop ((text.takeWhile Char.isWhitespace).length + 1)).takeWhile
            (fun c => c != '\n')).length ≤
            text.length - ((text.takeWhile Char.isWhitespace).length + 1) := by
        calc ((text.drop ((text.takeWhile Char.isWhitespace).length + 1)).takeWhile
              (fun c => c != '\n')).length
            ≤ (text.drop ((text.takeWhile Char.isWhitespace).length + 1)).length :=
              (List.takeWhile_sublist _).length_le
          _ = text.length - ((text.takeWhile Char.isWhitespace).length + 1) :=
              List.length_drop ..
      cases h
      omega
    case isFalse => exact Option.noConfusion h
  case isFalse => exact Option.noConfusion h

theorem matchLineComment_good : GoodMatcher matchLineComment := by
  intro text i l h
  unfold matchLineComment at h
  split at h
  case isTrue hc =>
    have h2 : i + 1 < text.length := getElem?_some_lt hc.2
    have hrest :
        ((text.drop (i + 2)).takeWhile (fun c => c != '\n')).length ≤
          text.length - (i + 2) := by
      calc ((text.drop (i + 2)).takeWhile (fun c => c != '\n')).length
          ≤ (text.drop (i + 2)).length := (List.takeWhile_sublist _).length_le
        _ = text.length - (i + 2) := List.length_drop ..
    cases h
    omega
  case isFalse => exact Option.noConfusion h

theorem matchBlockComment_good : GoodMatcher matchBlockComment := by
  intro text i l h
  exact Option.noConfusion h

theorem matchCallable_good : GoodMatcher matchCallable := by
  intro text i l h
  unfold matchCallable at h
  split at h
  case isTrue hb =>
    split at h
    · exact Option.noConfusion h
    case h_2 c hc =>
      split at h
      case isTrue =>
        split at h
        case isTrue =>
          cases h
          have hi : i < text.length := getElem?_some_lt hc
          have := wordRun_le text (i + 1)
          omega
        case isFalse => exact Option.noConfusion h
      case isFalse => exact Option.noConfusion h
  case isFalse => exact Option.noConfusion h

/-! ## Helper lemmas: the per-rule scan loop -/

theorem indexInAux_some {m : List Char → Nat → Option Nat} {text : List Char} :
    ∀ {k s i l : Nat}, indexInAux m text k s = some (i, l) →
      s ≤ i ∧ m text i = some l := by
  intro k
  induction k with
  | zero => intro s i l h; exact Option.noConfusion h
  | succ k ih =>
    intro s i l h
    unfold indexInAux at h
    cases hm : m text s with
    | some l0 =>
      rw [hm] at h
      cases h
      exact ⟨Nat.le_refl _, hm⟩
    | none =>
      rw [hm] at h
      have := ih h
      exact ⟨Nat.le_of_succ_le this.1, this.2⟩

theorem indexIn_some {m : List Char → Nat → Option Nat} {text : List Char}
    {start i l : Nat} (h : indexIn m text start = some (i, l)) :
    start ≤ i ∧ m text i = some l :=
  indexInAux_some h

theorem indexIn_none_of_high {m : List Char → Nat → Option Nat}
    {text : List Char} {start : Nat} (h : text.length + 1 - start = 0) :
    indexIn m text start = none := by
  unfold indexIn
  rw [h]
  rfl

theorem indexIn_none_of_matchless {m : List Char → Nat → Option Nat}
    {text : List Char} (hm : ∀ j, m text j = none) (start : Nat) :
    indexIn m text start = none := by
  unfold indexIn
  generalize text.length + 1 - start = k
  induction k generalizing start with
  | zero => rfl
  | succ k ih =>
    unfold indexInAux
    rw [hm start]
    exact ih (start + 1)

theorem scanFrom_mem {m : List Char → Nat → Option Nat} {text : List Char} :
    ∀ {fuel start i l : Nat}, (i, l) ∈ scanFrom m text start fuel →
      m text i = some l ∧ start ≤ i := by
  intro fuel
  induction fuel with
  | zero => intro start i l h; exact absurd h (List.not_mem_nil _)
  | succ fuel ih =>
    intro start i l h
    unfold scanFrom at h
    cases hidx : indexIn m text start with
    | none => rw [hidx] at h; exact absurd h (List.not_mem_nil _)
    | some il =>
      obtain ⟨i0, l0⟩ := il
      rw [hidx] at h
      have hspec := indexIn_some hidx
      rcases List.mem_cons.1 h with heq | htail
      · cases heq
        exact ⟨hspec.2, hspec.1⟩
      · have := ih htail
        exact ⟨this.1, by omega⟩

theorem scanFrom_eq {m : List Char → Nat → Option Nat} (hm : GoodMatcher m)
    (text : List Char) :
    ∀ (f1 f2 start : Nat), text.length + 1 - start ≤ f1 →
      text.length + 1 - start ≤ f2 →
      scanFrom m text start f1 = scanFrom m text start f2 := by
  intro f1
  induction f1 with
  | zero =>
    intro f2 start h1 h2
    have h0 : text.length + 1 - start = 0 := Nat.le_zero.1 h1
    have hnone := indexIn_none_of_high (m := m) h0
    cases f2 with
    | zero => rfl
    | succ g => unfold scanFrom; rw [hnone]
  | succ f1 ih =>
    intro f2 start h1 h2
    by_cases h0 : text.length + 1 - start = 0
    · have hnone := indexIn_none_of_high (m := m) h0
      cases f2 with
      | zero => unfold scanFrom; rw [hnone]
      | succ g => unfold scanFrom; rw [hnone]
    · have hf2 : 0 < f2 := by omega
      obtain ⟨g, rfl⟩ : ∃ g, f2 = g + 1 := ⟨f2 - 1, by omega⟩
      show scanFrom m text start (f1 + 1) = scanFrom m text start (g + 1)
      unfold scanFrom
      cases hidx : indexIn m text start with
      | none => rfl
      | some il =>
        obtain ⟨i, l⟩ := il
        have hspec := indexIn_some hidx
        have hgood := hm text i l hspec.2
        have hnext : text.length + 1 - (i + l) ≤ f1 := by omega
        have hnext2 : text.length + 1 - (i + l) ≤ g := by omega
        have htail := ih g (i + l) hnext hnext2
        show (i, l) :: scanFrom m text (i + l) f1 = (i, l) :: scanFrom m text (i + l) g
        rw [htail]

/-- Every rule compiled by `init_rules` is a good matcher: its matches are
nonempty and in bounds. -/
theorem rules_good : ∀ r ∈ rules, GoodMatcher r.matcher := by
  have hkw : ∀ w ∈ kws, w.toList ≠ [] := by decide
  have hty : ∀ t ∈ types, t.toList ≠ [] := by decide
  intro r hr
  unfold rules at hr
  rcases List.mem_append.1 hr with h | h
  · rcases List.mem_append.1 h with h | h
    · obtain ⟨w, hw, rfl⟩ := List.mem_map.1 h
      exact matchWord_good _ (hkw w hw)
    · obtain ⟨t, ht, rfl⟩ := List.mem_map.1 h
      exact matchWord_good _ (hty t ht)
  · simp only [List.mem_cons, List.not_mem_nil, or_false] at h
    rcases h with rfl | rfl | rfl | rfl | rfl | rfl | rfl
    · exact matchNumber_good
    · exact matchQuoted_good _
    · exact matchQuoted_good _
    · exact matchPre_good
    · exact matchLineComment_good
    · exact matchBlockComment_good
    · exact matchCallable_good

/-- Membership in `classify` unfolded down to a single rule match. -/
theorem classify_mem {text : List Char} {s : Span} (hs : s ∈ classify text) :
    ∃ r ∈ rules, r.matcher text s.start = some s.length ∧ s.category = r.category := by
  unfold classify classifyWith at hs
  rw [List.mem_flatMap] at hs
  obtain ⟨r, hr, hs⟩ := hs
  rw [List.mem_map] at hs
  obtain ⟨⟨i, l⟩, hil, rfl⟩ := hs
  exact ⟨r, hr, (scanFrom_mem hil).1, rfl⟩

/-! ## Helper lemmas: paint-order stamping -/

theorem find?_append {α : Type} (f : α → Bool) :
    ∀ (l₁ l₂ : List α), (l₁ ++ l₂).find? f =
      match l₁.find? f with
      | some x => some x
      | none => l₂.find? f := by
  intro l₁ l₂
  induction l₁ with
  | nil => simp
  | cons a t ih =>
    by_cases h : f a = true <;> simp [List.find?, h, ih]

theorem stamp_eq (p : Nat) :
    ∀ (l : List Span) (acc : Option Category),
      l.foldl
        (fun acc s =>
          if s.start ≤ p ∧ p < s.start + s.length then some s.category else acc)
        acc
      = match l.reverse.find? (coversB p) with
        | some s => some s.category
        | none => acc := by
  intro l
  induction l with
  | nil => intro acc; rfl
  | cons s t ih =>
    intro acc
    rw [List.foldl_cons, ih, List.reverse_cons, find?_append]
    cases hfind : t.reverse.find? (coversB p) with
    | some s' => rfl
    | none =>
      by_cases hc : s.start ≤ p ∧ p < s.start + s.length
      · simp [List.find?, coversB, hc]
      · simp [List.find?, coversB, hc]

/-! ## Helper lemmas: digit heads and empty scans -/

theorem digitRun_pos {text : List Char} {i : Nat} (hpos : 0 < digitRun text i) :
    ∃ c, text[i]? = some c ∧ c.isDigit = true := by
  unfold digitRun at hpos
  cases hdrop : text.drop i with
  | nil => rw [hdrop] at hpos; simp at hpos
  | cons c rest =>
    by_cases hc : c.isDigit = true
    · refine ⟨c, ?_, hc⟩
      have h0 : (text.drop i)[0]? = some c := by rw [hdrop]; simp
      rw [List.getElem?_drop] at h0
      simpa using h0
    · rw [hdrop, List.takeWhile_cons_of_neg hc] at hpos
      simp at hpos

theorem matchNumber_digit {text : List Char} {i l : Nat}
    (h : matchNumber text i = some l) :
    ∃ c, text[i]? = some c ∧ c.isDigit = true := by
  unfold matchNumber at h
  split at h
  case isFalse => exact Option.noConfusion h
  case isTrue =>
    split at h
    case isTrue => exact Option.noConfusion h
    case isFalse hd0 => exact digitRun_pos (Nat.pos_of_ne_zero hd0)

theorem runRule_nil {m : List Char → Nat → Option Nat} {text : List Char}
    (hm : ∀ j, m text j = none) : runRule m text = [] := by
  unfold runRule scanFrom
  rw [indexIn_none_of_matchless hm 0]

/-! ## Claim theorems -/

/-- Claim C1, counterexample: on `"int x = sizeof(x);"` the effective
category of `sizeof` (offset 8) is `CallableName`, not `Keyword` — the
callable-name rule is applied last and, under the unconditional stamping of
`setFormat`, overrides the earlier keyword match. -/
theorem c1_counterexample :
    charCat ("int x = sizeof(x);".toList) 8 = some Category.CallableName ∧
    ¬charCat ("int x = sizeof(x);".toList) 8 = some Category.Keyword := by
  refine ⟨by decide, by decide⟩

/-- Claim C1, amended: the callable-name rule (identifier followed by `(`)
is applied last, so it overrides, rather than never overrides, a keyword or
type classification on the same text: for `"int x = sizeof(x);"`, `int` is
Type, `sizeof` ends up `CallableName` even though the keyword rule matched
it (the `Keyword` span is in the emitted list but is overwritten), and `x`
is left untagged. -/
theorem c1_callable_overrides :
    charCat ("int x = sizeof(x);".toList) 0 = some Category.TypeName ∧
    charCat ("int x = sizeof(x);".toList) 2 = some Category.TypeName ∧
    (⟨8, 6, Category.Keyword⟩ : Span) ∈ classify ("int x = sizeof(x);".toList) ∧
    charCat ("int x = sizeof(x);".toList) 8 = some Category.CallableName ∧
    charCat ("int x = sizeof(x);".toList) 13 = some Category.CallableName ∧
    charCat ("int x = sizeof(x);".toList) 4 = none ∧
    charCat ("int x = sizeof(x);".toList) 15 = none := by
  refine ⟨by decide, by decide, by decide, by decide, by decide, by decide, by decide⟩

/-- Claim C2: overlap resolution is last-applied-wins — the effective
per-character category equals the category of the last span (in emission
order, i.e. rule order) covering the character; and for
`"x = 5; // int y"` the trailing `// int y` is a single Comment span
(offsets 7–14) whose category overrides the Type match on `int` inside
it. -/
theorem c2_last_rule_wins :
    (∀ (text : List Char) (p : Nat),
        charCat text p =
          ((classify text).reverse.find? (coversB p)).map Span.category) ∧
    (⟨10, 3, Category.TypeName⟩ : Span) ∈ classify ("x = 5; // int y".toList) ∧
    (classify ("x = 5; // int y".toList)).filter
        (fun s => decide (s.category = Category.Comment)) =
      [⟨7, 8, Category.Comment⟩] ∧
    charCat ("x = 5; // int y".toList) 7 = some Category.Comment ∧
    charCat ("x = 5; // int y".toList) 10 = some Category.Comment ∧
    charCat ("x = 5; // int y".toList) 14 = some Category.Comment := by
  refine ⟨?_, by decide, by decide, by decide, by decide, by decide⟩
  intro text p
  unfold charCat
  rw [stamp_eq]
  cases (classify text).reverse.find? (coversB p) <;> rfl

/-- Claim C3 (code evaluated at the failing input): the block-comment
rule never matches anything.  Its pattern `/\*.*?\*/` spells a lazy
nearest-closer match, but QRegExp has no lazy quantifiers, so the compiled
pattern is invalid and yields zero matches: every position of every block
text is rejected, the per-rule scan is empty, and even `"/* a */"` — where
the claim expects one Comment span up to the nearest `*/` — is classified
with no span at all. -/
theorem c3_block_rule_never_matches :
    (∀ (text : List Char) (i : Nat), matchBlockComment text i = none) ∧
    (∀ text : List Char, runRule matchBlockComment text = []) ∧
    classify ("/* a */".toList) = [] := by
  refine ⟨fun text i => rfl, fun text => runRule_nil fun j => rfl, by decide⟩

/-- Claim C4, counterexample: for the input `".5"` the leading `.` is not
classified at all (its effective category is `none`), and there is no
Number span covering the whole literal `[0, 2)` — the numeric rule
`\b[0-9]+(\.[0-9]+)?\b` requires at least one digit before the point, so
the integer part is not optional. -/
theorem c4_counterexample :
    charCat (".5".toList) 0 = none ∧
    ¬(⟨0, 2, Category.Number⟩ : Span) ∈ classify (".5".toList) := by
  refine ⟨by decide, by decide⟩

/-- Claim C4, amended: the numeric rule has a mandatory integer part (every
match starts with a digit) and an optional fractional part; for `".5"` only
the `5` is classified as Number, the `.` staying untagged, while `"3.14"`
and `"42"` are matched whole. -/
theorem c4_number_integer_part :
    (∀ (text : List Char) (i l : Nat), matchNumber text i = some l →
        ∃ c, text[i]? = some c ∧ c.isDigit = true) ∧
    classify (".5".toList) = [⟨1, 1, Category.Number⟩] ∧
    classify ("3.14".toList) = [⟨0, 4, Category.Number⟩] ∧
    classify ("42".toList) = [⟨0, 2, Category.Number⟩] := by
  refine ⟨fun text i l h => matchNumber_digit h, by decide, by decide, by decide⟩

/-- Claim C4, amended, witness: the matcher accepts `"42"` at 0 with
length 2, and the theorem then yields the digit at the match start. -/
theorem c4_number_integer_part_witness :
    ∃ c, ("42".toList)[0]? = some c ∧ c.isDigit = true :=
  c4_number_integer_part.1 ("42".toList) 0 2 (by decide)

/-- Claim C5: every span produced by `classify` lies within the bounds of
the block text: `0 ≤ start` and `start + length ≤ len(text)`. -/
theorem c5_spans_in_bounds :
    ∀ (text : List Char), ∀ s ∈ classify text,
      0 ≤ s.start ∧ s.start + s.length ≤ text.length := by
  intro text s hs
  obtain ⟨r, hr, hm, _⟩ := classify_mem hs
  exact ⟨Nat.zero_le _, (rules_good r hr text s.start s.length hm).2⟩

/-- Claim C5, witness: the single span of `classify "int"` is in bounds. -/
theorem c5_spans_in_bounds_witness :
    0 ≤ (0 : Nat) ∧ 0 + 3 ≤ ("int".toList).length :=
  c5_spans_in_bounds ("int".toList) ⟨0, 3, Category.TypeName⟩ (by decide)

/-- Claim C6: for `a = "he said \"hi\"";` the whole quoted region,
including the two escaped quotes, is one single String span `⟨4, 16⟩`
(offsets 4–19), not terminated early at the escaped `"` (offset 14). -/
theorem c6_string_escapes :
    classify ("a = \"he said \\\"hi\\\"\";".toList) = [⟨4, 16, Category.String⟩] ∧
    charCat ("a = \"he said \\\"hi\\\"\";".toList) 4 = some Category.String ∧
    charCat ("a = \"he said \\\"hi\\\"\";".toList) 14 = some Category.String ∧
    charCat ("a = \"he said \\\"hi\\\"\";".toList) 19 = some Category.String := by
  refine ⟨by decide, by decide, by decide, by decide⟩

/-- Claim C7: the gutter label of block `b` is the 1-based line number
`str(b + 1)`, and the column width is 3 plus one digit-glyph width per
decimal digit of the block count: with 9 blocks one digit is used, with 10
blocks two digits. -/
theorem c7_gutter_width :
    ∀ charWidth : Nat,
      lineNumberAreaWidth 9 charWidth = 3 + charWidth * 1 ∧
      lineNumberAreaWidth 10 charWidth = 3 + charWidth * 2 ∧
      lineNumberAreaLabels 0 9 = ["1", "2", "3", "4", "5", "6", "7", "8", "9"] ∧
      lineNumberAreaLabels 9 1 = ["10"] := by
  intro charWidth
  refine ⟨?_, ?_, by decide, by decide⟩
  · unfold lineNumberAreaWidth
    rw [show (Nat.repr (max 1 9)).length = 1 from by decide]
  · unfold lineNumberAreaWidth
    rw [show (Nat.repr (max 1 10)).length = 2 from by decide]

/-- Claim C8, counterexample: the status label produced for the caret at
block 0, offset 0 is not the bare string `"Ln 1, Col 1"` — the code
prefixes a pin emoji. -/
theorem c8_counterexample :
    updateCursorPosition 0 0 ≠ "Ln 1, Col 1" := by decide

/-- Claim C8, amended: the cursor reporter is a pure function returning
exactly `"📍 Ln <line>, Col <col>"` with `line = block_index + 1` and
`col = offset + 1`; in particular block 0 / offset 0 gives
`"📍 Ln 1, Col 1"` and block 4 / offset 7 gives `"📍 Ln 5, Col 8"`. -/
theorem c8_cursor_label :
    (∀ b o : Nat, updateCursorPosition b o =
        "📍 Ln " ++ Nat.repr (b + 1) ++ ", Col " ++ Nat.repr (o + 1)) ∧
    updateCursorPosition 0 0 = "📍 Ln 1, Col 1" ∧
    updateCursorPosition 4 7 = "📍 Ln 5, Col 8" := by
  refine ⟨fun b o => rfl, by decide, by decide⟩

/-- Claim C9: classification is deterministic and pure — `highlightBlock`
leaves the rule state unchanged, a second invocation on the same text
yields the identical span sequence, and the result is the pure function
`classify` of the text and the rule table built by `init_rules`. -/
theorem c9_classify_pure :
    ∀ (st : HighlighterState) (text : List Char),
      (highlightBlock st text).2 = st ∧
      (highlightBlock (highlightBlock st text).2 text).1 =
        (highlightBlock st text).1 ∧
      (highlightBlock initState text).1 = classify text :=
  fun _ _ => ⟨rfl, rfl, rfl⟩

/-- Claim C10: every rule of the fixed table consumes at least one
character per match (no rule matches the empty string), so the per-rule
scan loop strictly advances and terminates: any fuel of at least
`len(text) + 1` iterations yields the same, complete match list as
`runRule`. -/
theorem c10_scan_terminates :
    ∀ r ∈ rules,
      (∀ (text : List Char) (i l : Nat), r.matcher text i = some l → 1 ≤ l) ∧
      (∀ (text : List Char) (fuel : Nat), text.length + 1 ≤ fuel →
        scanFrom r.matcher text 0 fuel = runRule r.matcher text) := by
  intro r hr
  have hg := rules_good r hr
  refine ⟨fun text i l h => (hg text i l h).1, fun text fuel hf => ?_⟩
  unfold runRule
  exact scanFrom_eq hg text fuel (text.length + 1) 0 (by omega) (by omega)

/-- Claim C10, witness: for the number rule on `"12 34"`, 100 iterations
of fuel and the canonical `len + 1 = 6` give the same scan result. -/
theorem c10_scan_terminates_witness :
    scanFrom matchNumber ("12 34".toList) 0 100 =
      runRule matchNumber ("12 34".toList) := by
  have hmem : (⟨matchNumber, Category.Number⟩ : Rule) ∈ rules := by
    unfold rules
    exact List.mem_append_right _ (List.mem_cons_self _ _)
  exact (c10_scan_terminates _ hmem).2 ("12 34".toList) 100 (by decide)
